import Mathlib

/-!
Shallow embedding of the segment transcoding and caching engine of
`src/server/services/videoService.js` (class `VideoService`), together with
theorems settling the specification claims about it.

Modelling conventions:
* JavaScript numbers (durations, sizes, timestamps) are modelled as `ℚ`;
  all the values the claims quantify over are exactly representable.
* JavaScript `Map` objects are modelled as association lists
  `List (String × α)` in insertion order; `Map.set` replaces in place when
  the key is present and appends otherwise, `Map.delete` filters the key out.
* Asynchronous control flow is modelled by splitting each async function
  into its synchronous blocks (the code between two `await` suspension
  points); a scheduler interleaves whole blocks, which is faithful to the
  single-threaded JavaScript event loop.
-/

namespace VideoReview

/-- One entry of the HLS playlist produced by `generateHLSSegments`
(`videoService.js` lines 358–371). -/
structure HLSSegment where
  index : ℕ
  startTime : ℚ
  duration : ℚ
  deriving Repr, DecidableEq

/-- Embeds the segment-construction loop of `generateHLSSegments`
(`videoService.js` lines 355–371): `segmentCount = Math.ceil(totalDuration /
segmentDuration)` and, for each `i`, `startTime = i * segmentDuration`,
`actualDuration = Math.min(segmentDuration, totalDuration - startTime)`. -/
def generateHLSSegments (totalDuration segmentDuration : ℚ) : List HLSSegment :=
  let segmentCount : ℕ := ⌈totalDuration / segmentDuration⌉₊
  (List.range segmentCount).map (fun (i : ℕ) =>
    let startTime : ℚ := (i : ℚ) * segmentDuration
    { index := i
      startTime := startTime
      duration := min segmentDuration (totalDuration - startTime) })

/-! ### JavaScript `Map` model

Association lists in insertion order. `Map.get` returns the (unique) value
stored under the key, `Map.set` replaces in place or appends, `Map.delete`
removes the key's entry. -/

/-- Model of `Map.prototype.get`. -/
def mapGet (k : String) : List (String × α) → Option α
  | [] => none
  | kv :: rest => if kv.1 = k then some kv.2 else mapGet k rest

/-- Model of `Map.prototype.has`. -/
def mapHas (k : String) (m : List (String × α)) : Bool :=
  (mapGet k m).isSome

/-- Model of `Map.prototype.set`: replace in place when the key is present,
append otherwise (JavaScript `Map` preserves insertion order). -/
def mapSet (k : String) (v : α) : List (String × α) → List (String × α)
  | [] => [(k, v)]
  | kv :: rest => if kv.1 = k then (k, v) :: rest else kv :: mapSet k v rest

/-- Model of `Map.prototype.delete`. -/
def mapDelete (k : String) (m : List (String × α)) : List (String × α) :=
  m.filter (fun kv => decide (kv.1 ≠ k))

/-! ### Source cache (`localFileCache`), download dedup and eviction -/

/-- One value of the `localFileCache` map (`videoService.js` lines 115–120 and
184–189): local path, size in bytes, and the two timestamps. -/
structure CacheEntry where
  path : String
  size : ℚ
  lastAccessed : ℚ
  downloadTime : ℚ
  deriving Repr, DecidableEq

/-- The `localFileCache` map, keyed by storage key. -/
abbrev LocalFileCache := List (String × CacheEntry)

/-- The tracked total cached size (`videoService.js` lines 225–226):
`Array.from(this.localFileCache.values()).reduce((sum, file) => sum + file.size, 0)`. -/
def totalCacheSize (cache : LocalFileCache) : ℚ :=
  (cache.map (fun kv => kv.2.size)).sum

/-- The comparator of the LRU sort (`videoService.js` line 233):
`(a, b) => a.lastAccessed - b.lastAccessed`, i.e. ascending last-accessed time. -/
def lastAccessedLE (a b : String × CacheEntry) : Prop :=
  a.2.lastAccessed ≤ b.2.lastAccessed

instance : DecidableRel lastAccessedLE :=
  fun a b => inferInstanceAs (Decidable (a.2.lastAccessed ≤ b.2.lastAccessed))

instance : IsTotal (String × CacheEntry) lastAccessedLE :=
  ⟨fun a b => le_total a.2.lastAccessed b.2.lastAccessed⟩

instance : IsTrans (String × CacheEntry) lastAccessedLE :=
  ⟨fun _ _ _ h1 h2 => le_trans h1 h2⟩

/-- The eviction loop of `cleanupCacheIfNeeded` (`videoService.js` lines
238–249), walking the LRU-sorted entries with the running `removedSize`.
`unlinkFails p` models `fs.unlinkSync(p)` raising; on failure the error is
logged, the tracking entry stays and `removedSize` is not incremented, and the
loop continues with the next candidate. Returns the successfully evicted
entries in eviction order, together with the final `removedSize`. -/
def cleanupLoop (targetSize totalSize : ℚ) (unlinkFails : String → Bool) :
    LocalFileCache → ℚ → LocalFileCache × ℚ
  | [], removedSize => ([], removedSize)
  | (s3Key, fileInfo) :: rest, removedSize =>
    if totalSize - removedSize ≤ targetSize then ([], removedSize)
    else if unlinkFails fileInfo.path then
      cleanupLoop targetSize totalSize unlinkFails rest removedSize
    else
      let res := cleanupLoop targetSize totalSize unlinkFails rest (removedSize + fileInfo.size)
      ((s3Key, fileInfo) :: res.1, res.2)

/-- The entries `cleanupCacheIfNeeded` evicts, in eviction order: the loop of
lines 238–249 run over the entries sorted by ascending `lastAccessed`
(line 232–233), with `targetSize = maxLocalCacheSize * 0.8` (line 236) and
`removedSize` starting at 0 (line 235). -/
def evictedEntries (maxLocalCacheSize : ℚ) (unlinkFails : String → Bool)
    (cache : LocalFileCache) : LocalFileCache :=
  (cleanupLoop (maxLocalCacheSize * (8 / 10)) (totalCacheSize cache) unlinkFails
    (List.insertionSort lastAccessedLE cache) 0).1

/-- Model of `cleanupCacheIfNeeded` (`videoService.js` lines 223–256): when
the tracked total size exceeds `maxLocalCacheSize`, each successful eviction
deletes the file (`fs.unlinkSync`) and removes the tracking entry
(`localFileCache.delete`). Returns the tracking map after the pass and the
paths of the files deleted from disk, in deletion order. -/
def cleanupCacheIfNeeded (maxLocalCacheSize : ℚ) (unlinkFails : String → Bool)
    (cache : LocalFileCache) : LocalFileCache × List String :=
  if totalCacheSize cache > maxLocalCacheSize then
    let evicted := evictedEntries maxLocalCacheSize unlinkFails cache
    (cache.filter (fun kv => decide (kv.1 ∉ evicted.map (fun e => e.1))),
     evicted.map (fun e => e.2.path))
  else (cache, [])

/-- Model of `path.extname` as used on storage keys: the suffix starting at
the last dot, or the empty string when the key has no dot. -/
def extnameOf (s : String) : String :=
  if (s.splitOn ".").length ≤ 1 then "" else "." ++ (s.splitOn ".").getLastD ""

/-- Model of `getLocalFilePath` (`videoService.js` lines 98–102): a
deterministic path in the cache directory derived from the SHA-256 hex digest
of the key plus the key's extension (defaulting to `.video`). The digest
primitive is external and passed in as `sha256hex`. -/
def getLocalFilePath (localCacheDir : String) (sha256hex : String → String)
    (s3Key : String) : String :=
  localCacheDir ++ "/" ++ sha256hex s3Key ++
    (if extnameOf s3Key = "" then ".video" else extnameOf s3Key)

/-- The cache-hit branch of `ensureLocalFile` (`videoService.js` lines
109–124): the file for the key already exists on disk, so the key's tracking
entry is refreshed — size from the on-disk stat, `lastAccessed` set to now,
`downloadTime` preserved when the key was already tracked (`?.downloadTime ||
new Date()`) — and the local path is returned. No download starts and
`cleanupCacheIfNeeded` is not invoked on this branch (it runs only from
`downloadFileToLocal`, line 192). -/
def ensureLocalFileHit (localCacheDir : String) (sha256hex : String → String)
    (now statSize : ℚ) (s3Key : String) (cache : LocalFileCache) :
    LocalFileCache × String :=
  let localPath := getLocalFilePath localCacheDir sha256hex s3Key
  let entry : CacheEntry :=
    { path := localPath
      size := statSize
      lastAccessed := now
      downloadTime :=
        match mapGet s3Key cache with
        | some old => old.downloadTime
        | none => now }
  (mapSet s3Key entry cache, localPath)

/-- State of the download machinery of `ensureLocalFile` for one fixed
storage key. `fileOnDisk` is what `fs.existsSync(localPath)` reports;
`fileComplete` records whether the bytes at `localPath` are the whole object
(false while a download is still writing into the file); `activeDownload` is
the key's entry of `activeDownloads` (promise id and the local path it
resolves to); `startedDownloads` counts the network transfers
(`downloadFileToLocal` invocations). -/
structure DownloadState where
  fileOnDisk : Bool
  fileComplete : Bool
  activeDownload : Option (ℕ × String)
  startedDownloads : ℕ
  deriving Repr, DecidableEq

/-- What one caller of `ensureLocalFile` is handed by its synchronous entry
block. -/
inductive EnsureOutcome where
  | cachedPath (path : String)
  | awaitDownload (promiseId : ℕ) (path : String)
  | startedDownload (promiseId : ℕ) (path : String)
  deriving Repr, DecidableEq

/-- The synchronous entry block of `ensureLocalFile` (`videoService.js` lines
109–135), in the code's order: the `fs.existsSync` check (112) returns the
path immediately on a hit — whether or not the file is still being written;
then the `activeDownloads` check (127) joins the in-flight promise; otherwise
`downloadFileToLocal` is called (134) — whose body runs synchronously and
calls `fs.createWriteStream(localPath)` at line 153 — and the returned
promise is registered (135), all with no intervening `await` (the first
`await` is line 138). The `O_CREAT` open that `fs.createWriteStream` issues
completes asynchronously moments later; it is the separate
`writeStreamOpenCompletes` event below, after which `fs.existsSync` reports
the partially written destination file for the rest of the download.
`downloadFileToLocal s3Key localPath` resolves `localPath` (line 194), so the
registered promise carries `localPath`. -/
def ensureLocalFileEnter (localPath : String) (freshId : ℕ) (s : DownloadState) :
    EnsureOutcome × DownloadState :=
  if s.fileOnDisk then (.cachedPath localPath, s)
  else
    match s.activeDownload with
    | some pr => (.awaitDownload pr.1 pr.2, s)
    | none =>
      (.startedDownload freshId localPath,
       { s with
          activeDownload := some (freshId, localPath)
          startedDownloads := s.startedDownloads + 1 })

/-- The destination file appearing on disk: the asynchronous `O_CREAT` open
issued by `fs.createWriteStream(localPath)` (`videoService.js` line 153) at
download start completes, so `fs.existsSync(localPath)` turns true while the
download is still writing. -/
def writeStreamOpenCompletes (s : DownloadState) : DownloadState :=
  { s with fileOnDisk := true }

/-- The first caller's download settling successfully: the response `end`
handler finishes the write and resolves the promise (lines 174–195) and the
awaiting caller then removes the registry entry (line 139). -/
def downloadSettles (s : DownloadState) : DownloadState :=
  { s with fileComplete := true, activeDownload := none }

/-- The second-caller scenario of C7, in event-loop order: caller A enters on
a fresh state and starts the download; the write stream's open completes (the
destination file now exists on disk, still partial); caller B enters while
the download is in flight. Returns A's outcome, B's outcome and the final
state. -/
def secondCallerDuringDownload (localPath : String) :
    EnsureOutcome × EnsureOutcome × DownloadState :=
  let s0 : DownloadState :=
    { fileOnDisk := false, fileComplete := false, activeDownload := none,
      startedDownloads := 0 }
  let r1 := ensureLocalFileEnter localPath 0 s0
  let s1 := writeStreamOpenCompletes r1.2
  let r2 := ensureLocalFileEnter localPath 1 s1
  (r1.1, r2.1, r2.2)

/-! ### In-flight registry race of `_streamSegmentInternal`

`_streamSegmentInternal` checks `activeProcesses` synchronously on entry
(line 411) but registers the spawned process only at lines 556–559, after the
`await`s of lines 436 (`getVideoInfo`) and 456 (`ensureLocalFile`). Each
caller is modelled by its two synchronous blocks; a schedule interleaves
whole blocks. -/

/-- Phase of one caller of `_streamSegmentInternal` for a fixed job key. -/
inductive SegCallerPhase where
  /-- about to run the synchronous entry block containing the
  `activeProcesses` check (line 411) -/
  | atEntry
  /-- passed the check and parked at the `await`s (lines 436 / 456); with the
  default configuration `enableLocalCache = true` at least one `await`
  separates the check from the spawn -/
  | suspendedAtAwait
  /-- returned the stream already registered by another caller (line 412) -/
  | joined
  /-- ran `spawn` (line 556) and registered the key (line 559) -/
  | spawnedProc
  deriving Repr, DecidableEq

/-- Shared state for two concurrent `_streamSegmentInternal` callers with the
same job key: whether `activeProcesses` holds the key, and how many ffmpeg
subprocesses have been spawned for it. -/
structure SegRaceState where
  registryHasKey : Bool
  spawnCount : ℕ
  callerA : SegCallerPhase
  callerB : SegCallerPhase
  deriving Repr, DecidableEq

/-- One synchronous block of one caller: the entry block either joins (key
registered) or suspends at the awaits; the resume block spawns the subprocess
and registers the key. Returns the caller's new phase, the new registry
state, and the new spawn count. -/
def segCallerStep (phase : SegCallerPhase) (registryHasKey : Bool)
    (spawnCount : ℕ) : SegCallerPhase × Bool × ℕ :=
  match phase with
  | .atEntry =>
    if registryHasKey then (.joined, registryHasKey, spawnCount)
    else (.suspendedAtAwait, registryHasKey, spawnCount)
  | .suspendedAtAwait => (.spawnedProc, true, spawnCount + 1)
  | p => (p, registryHasKey, spawnCount)

/-- Run one scheduled block: `who = true` steps caller A, `who = false` steps
caller B. -/
def segRaceStep (who : Bool) (s : SegRaceState) : SegRaceState :=
  if who then
    let r := segCallerStep s.callerA s.registryHasKey s.spawnCount
    { s with callerA := r.1, registryHasKey := r.2.1, spawnCount := r.2.2 }
  else
    let r := segCallerStep s.callerB s.registryHasKey s.spawnCount
    { s with callerB := r.1, registryHasKey := r.2.1, spawnCount := r.2.2 }

/-- Run a whole event-loop schedule. -/
def segRaceRun (sched : List Bool) (s : SegRaceState) : SegRaceState :=
  sched.foldl (fun st w => segRaceStep w st) s

/-- Initial state for two concurrent requests of the same job key on empty
caches: the key is not registered and no subprocess has been spawned. -/
def segRaceInit : SegRaceState :=
  { registryHasKey := false
    spawnCount := 0
    callerA := .atEntry
    callerB := .atEntry }

/-! ### Metadata probe, job keys, look-ahead scheduling -/

/-- An audio stream as found by the probe (`metadata.streams` entry with
`codec_type === 'audio'`). Only its presence matters to the claims. -/
structure AudioStreamInfo where
  codec : String
  deriving Repr, DecidableEq

/-- Probed video metadata (`getVideoInfo`, lines 272–290): duration and the
optional audio stream summary. -/
structure VideoMetadata where
  duration : ℚ
  audio : Option AudioStreamInfo
  deriving Repr, DecidableEq

/-- The error raised when `ffmpeg.ffprobe` fails. -/
inductive ProbeError where
  | probeFailed
  deriving Repr, DecidableEq

/-- The audio-presence resolution step of `_streamSegmentInternal`
(`videoService.js` lines 424–447): `hasAudio` starts `true`; a
`videoInfoCache` hit consults the cached metadata (`videoInfo.audio !==
null`); otherwise `getVideoInfo` runs inside `try { ... } catch` — a
successful probe records the metadata in the cache and consults it, while a
probe failure is caught and logged, leaving `hasAudio = true` and the cache
entry absent. The step itself never re-raises. Returns the computed
`hasAudio` together with the key's metadata-cache entry afterwards. -/
def resolveHasAudio (cachedInfo : Option VideoMetadata)
    (probe : Except ProbeError VideoMetadata) :
    Except ProbeError (Bool × Option VideoMetadata) :=
  match cachedInfo with
  | some videoInfo => .ok (videoInfo.audio.isSome, some videoInfo)
  | none =>
    match probe with
    | .ok videoInfo => .ok (videoInfo.audio.isSome, some videoInfo)
    | .error _ => .ok (true, none)

/-- The job key string `` `${s3Key}:${segmentIndex}:${segmentDuration}` ``
(`videoService.js` lines 386, 408, 611, 625), addressing both `segmentCache`
and `activeProcesses`. -/
def segmentJobKey (s3Key : String) (segmentIndex : ℤ) (segmentDuration : ℚ) :
    String :=
  s3Key ++ ":" ++ toString segmentIndex ++ ":" ++ toString segmentDuration

/-- The look-ahead window size (`videoService.js` lines 593–603): default 3;
when the recorded average encode time exceeds one segment's playback duration
in milliseconds, `min 6 (ceil(avgTime / (segmentDuration*1000)) + 2)`. -/
def segmentsAheadFor (segmentDuration : ℚ) (avgTime : Option ℚ) : ℕ :=
  match avgTime with
  | none => 3
  | some avg =>
    if avg > segmentDuration * 1000 then
      min 6 (⌈avg / (segmentDuration * 1000)⌉₊ + 2)
    else 3

/-- The candidate loop of `preEncodeAheadSegments` (`videoService.js` lines
617–636), for offsets `i, i+1, ...` with `rem` offsets remaining: break when
`currentSegmentIndex + i ≥ totalSegments`; skip candidates whose job key is
in `activeProcesses` or `segmentCache`; skip index 0 (handled by the
segment-0 priority push); collect the rest in order. -/
def lookAheadLoop (isActive isCached : String → Bool) (s3Key : String)
    (segmentDuration : ℚ) (totalSegments : ℕ) (currentSegmentIndex : ℤ) :
    ℕ → ℕ → List ℤ
  | _, 0 => []
  | i, rem + 1 =>
    let nextSegmentIndex := currentSegmentIndex + i
    if nextSegmentIndex ≥ (totalSegments : ℤ) then []
    else
      let nextCacheKey := segmentJobKey s3Key nextSegmentIndex segmentDuration
      if isActive nextCacheKey || isCached nextCacheKey then
        lookAheadLoop isActive isCached s3Key segmentDuration totalSegments
          currentSegmentIndex (i + 1) rem
      else if nextSegmentIndex = 0 then
        lookAheadLoop isActive isCached s3Key segmentDuration totalSegments
          currentSegmentIndex (i + 1) rem
      else
        nextSegmentIndex :: lookAheadLoop isActive isCached s3Key
          segmentDuration totalSegments currentSegmentIndex (i + 1) rem

/-- The plan computed by `preEncodeAheadSegments` (`videoService.js` lines
587–644): the ordered list of segment indices handed to
`encodeAndCacheSegment` as background jobs. `totalSegments =
Math.ceil(duration / segmentDuration)` (line 591); segment 0 is always
prioritized when neither in flight nor cached (lines 610–614); then the
candidate loop runs for offsets `1..segmentsAhead`. `isActive` and `isCached`
are membership in `activeProcesses` and `segmentCache` at scheduling time
(the whole plan is built and fired in one synchronous block after the probe). -/
def preEncodePlan (isActive isCached : String → Bool) (s3Key : String)
    (duration segmentDuration : ℚ) (avgTime : Option ℚ)
    (currentSegmentIndex : ℤ) : List ℤ :=
  let totalSegments : ℕ := ⌈duration / segmentDuration⌉₊
  let segmentsAhead := segmentsAheadFor segmentDuration avgTime
  let segment0CacheKey := segmentJobKey s3Key 0 segmentDuration
  let seg0 : List ℤ :=
    if isActive segment0CacheKey || isCached segment0CacheKey then []
    else [0]
  seg0 ++ lookAheadLoop isActive isCached s3Key segmentDuration totalSegments
    currentSegmentIndex 1 segmentsAhead

/-! ### Segment cache, dispatch, encode-and-cache handlers -/

/-- The `segmentCache` map: job key to the fully materialized segment bytes
(bytes abstracted as naturals). -/
abbrev SegmentCache := List (String × List ℕ)

/-- What `streamSegment` hands its caller. -/
inductive SegmentServed where
  /-- a fresh `Readable` over the cached buffer (lines 393–398) -/
  | fromCache (data : List ℕ)
  /-- the stdout stream produced by `_streamSegmentInternal` (line 404) -/
  | fromEncoder
  deriving Repr, DecidableEq

/-- The dispatch logic of `streamSegment` (`videoService.js` lines 385–405):
on a `segmentCache` hit it returns a stream over the cached buffer and
returns at line 398, before the `preEncodeAheadSegments` call at line 402; on
a miss it fires `preEncodeAheadSegments` with no `await` and delegates to
`_streamSegmentInternal`. The Bool records whether the look-ahead scheduler
was invoked. -/
def streamSegmentDispatch (segmentCache : SegmentCache) (s3Key : String)
    (segmentIndex : ℤ) (segmentDuration : ℚ) : SegmentServed × Bool :=
  let cacheKey := segmentJobKey s3Key segmentIndex segmentDuration
  match mapGet cacheKey segmentCache with
  | some cached => (.fromCache cached, false)
  | none => (.fromEncoder, true)

/-- The `encodingTimes` map (`perf:` keys to average milliseconds). -/
abbrev EncodingTimes := List (String × ℚ)

/-- The performance-sample update in the stream-end handler of
`encodeAndCacheSegment` (`videoService.js` lines 669–676): the first
completed encode's duration is stored directly; afterwards the stored value
is replaced by `(prevTime + encodingTime) / 2`. -/
def perfSampleUpdate (perfKey : String) (encodingTime : ℚ)
    (encodingTimes : EncodingTimes) : EncodingTimes :=
  match mapGet perfKey encodingTimes with
  | some prevTime => mapSet perfKey ((prevTime + encodingTime) / 2) encodingTimes
  | none => mapSet perfKey encodingTime encodingTimes

/-- Outcome of one ffmpeg subprocess run as observed through its stdout
stream and exit code. Node child-process semantics: unless the stdout stream
itself errors (`streamErrored`, the stream's `error` event), stdout emits its
data chunks followed by its `end` event when the process terminates — whatever
the exit code; the exit code is reported separately through the process
`close` event. -/
structure EncodeRun where
  chunks : List (List ℕ)
  streamErrored : Bool
  exitCode : ℤ
  deriving Repr, DecidableEq

/-- Effect of the stream handlers wired by `encodeAndCacheSegment`
(`videoService.js` lines 659–687) on `(segmentCache, encodingTimes)`, for an
encode whose measured wall-clock duration is `encodingTime`: the `end`
handler (lines 661–684) concatenates the collected chunks, stores them in the
segment cache under the job key and updates the performance sample; the
`error` handler (lines 685–687) only logs. No handler consults
`run.exitCode`. -/
def encodeAndCacheResult (cacheKey perfKey : String) (encodingTime : ℚ)
    (run : EncodeRun) (segmentCache : SegmentCache)
    (encodingTimes : EncodingTimes) : SegmentCache × EncodingTimes :=
  if run.streamErrored then (segmentCache, encodingTimes)
  else
    (mapSet cacheKey run.chunks.flatten segmentCache,
     perfSampleUpdate perfKey encodingTime encodingTimes)

/-- Effect of the `close` handler of `_streamSegmentInternal`
(`videoService.js` lines 577–581) when a foreground encode's subprocess
terminates with `exitCode`: the in-flight registry entry is deleted and the
exit code is logged; `encodingTimes` is not touched on this path. -/
def foregroundCloseEffect (cacheKey : String) (exitCode : ℤ)
    (activeProcesses : List (String × ℕ)) (encodingTimes : EncodingTimes) :
    List (String × ℕ) × EncodingTimes :=
  (mapDelete cacheKey activeProcesses, encodingTimes)

/-! ## Theorems -/

/-! ### Map lemmas -/

theorem mapGet_mapSet_self (k : String) (v : α) (m : List (String × α)) :
    mapGet k (mapSet k v m) = some v := by
  induction m with
  | nil => simp [mapSet, mapGet]
  | cons kv rest ih =>
    by_cases h : kv.1 = k
    · simp [mapSet, mapGet, h]
    · simp [mapSet, mapGet, h, ih]

theorem mapGet_mapSet_of_ne (k k2 : String) (v : α) (m : List (String × α))
    (h : k2 ≠ k) : mapGet k2 (mapSet k v m) = mapGet k2 m := by
  have hne : ¬(k = k2) := fun hk => h hk.symm
  induction m with
  | nil => simp [mapSet, mapGet, hne]
  | cons kv rest ih =>
    by_cases hk : kv.1 = k
    · subst hk
      simp [mapSet, mapGet, hne]
    · simp [mapSet, mapGet, hk, ih]

theorem mapHas_mapSet_of_has (k k2 : String) (v : α) (m : List (String × α))
    (h : mapHas k2 m = true) : mapHas k2 (mapSet k v m) = true := by
  by_cases hk : k2 = k
  · subst hk
    simp [mapHas, mapGet_mapSet_self]
  · rw [mapHas, mapGet_mapSet_of_ne k k2 v m hk]
    exact h

/-! ### C1: in-flight dedup race of `_streamSegmentInternal` -/

/-- C1: with two concurrent requests for the same job key from empty caches,
the event-loop schedule in which both callers run their synchronous entry
block (the `activeProcesses` check) before either reaches its spawn block
makes the code spawn TWO ffmpeg subprocesses for the key, violating the
claimed at-most-one-subprocess guarantee: the registry is only written at
line 559, after the suspension points at lines 436/456. -/
theorem segment_race_two_subprocesses :
    (segRaceRun [true, false, true, false] segRaceInit).spawnCount = 2 ∧
    ¬(segRaceRun [true, false, true, false] segRaceInit).spawnCount ≤ 1 := by
  decide

/-! ### C4: failed encodes are still cached -/

/-- C4: an encode whose subprocess exits with the non-zero code 1 and whose
stdout stream ends normally (which Node delivers for any exit code) still
causes `encodeAndCacheSegment`'s end handler to write a segment-cache entry
for the job key — the handlers never consult the exit code — contradicting
the claim that no entry is written for a failed encode. -/
theorem failed_encode_still_cached :
    ({ chunks := [], streamErrored := false, exitCode := 1 } : EncodeRun).exitCode ≠ 0 ∧
    mapGet "video.mxf:3:10"
      (encodeAndCacheResult "video.mxf:3:10" "perf:video.mxf" 500
        { chunks := [], streamErrored := false, exitCode := 1 } [] []).1
      = some [] := by
  exact ⟨by decide, by simp [encodeAndCacheResult, mapSet, mapGet]⟩

/-! ### C5: the scheduler is skipped on cache hits -/

/-- C5 counterexample: a segment request served from the segment cache
returns at line 398, before the `preEncodeAheadSegments` call at line 402, so
the look-ahead scheduler is NOT invoked on that request — refuting the claim
that it is invoked as a side effect of every segment request. -/
theorem cache_hit_skips_scheduler :
    (streamSegmentDispatch [(segmentJobKey "video.mxf" 0 10, [7])]
      "video.mxf" 0 10).2 = false := by
  simp [streamSegmentDispatch, mapGet]

/-- C5 amended: `preEncodeAheadSegments` is invoked (as an un-awaited side
effect) exactly on the segment requests that miss the segment cache. -/
theorem scheduler_fires_iff_cache_miss (c : SegmentCache) (k : String)
    (i : ℤ) (d : ℚ) :
    (streamSegmentDispatch c k i d).2 = true ↔
      mapGet (segmentJobKey k i d) c = none := by
  unfold streamSegmentDispatch
  cases h : mapGet (segmentJobKey k i d) c <;> simp [h]

/-! ### C6: which encodes update the performance sample -/

/-- C6 counterexample: a foreground encode that completes through
`_streamSegmentInternal`'s close handler (here with exit code 0, an encode of
any wall-clock duration) leaves `encodingTimes` untouched: with no prior
sample the stored sample is still absent afterwards, not the encode's
duration as the claim's update rule requires for every completed encode. -/
theorem foreground_encode_no_sample :
    (foregroundCloseEffect "video.mxf:0:10" 0 [("video.mxf:0:10", 7)] []).2 = [] ∧
    mapGet "perf:video.mxf"
      (foregroundCloseEffect "video.mxf:0:10" 0 [("video.mxf:0:10", 7)] []).2
      ≠ some 500 := by
  exact ⟨rfl, by simp [foregroundCloseEffect, mapGet]⟩

/-- C6 amended: the performance sample is updated by every encode completed
through the background encode-and-cache path (first completed encode's
duration stored directly, afterwards the stored average replaced by the
equally weighted mean of old average and new duration), while encodes
completed through the foreground streaming path leave the sample map
unchanged. -/
theorem perf_sample_background_update (cacheKey perfKey : String) (t : ℚ)
    (run : EncodeRun) (sc : SegmentCache) (ets : EncodingTimes)
    (aps : List (String × ℕ)) (code : ℤ)
    (h : run.streamErrored = false) :
    mapGet perfKey (encodeAndCacheResult cacheKey perfKey t run sc ets).2
      = some (match mapGet perfKey ets with
              | some prevTime => (prevTime + t) / 2
              | none => t) ∧
    (foregroundCloseEffect cacheKey code aps ets).2 = ets := by
  refine ⟨?_, rfl⟩
  unfold encodeAndCacheResult
  rw [h]
  cases hm : mapGet perfKey ets <;>
    simp [perfSampleUpdate, hm, mapGet_mapSet_self]

/-- Witness for C6's amended theorem at a concrete input: a prior sample of
200 and a new 400-millisecond encode store the pairwise mean 300. -/
theorem perf_sample_background_update_witness :
    mapGet "perf:video.mxf"
      (encodeAndCacheResult "video.mxf:1:10" "perf:video.mxf" 400
        { chunks := [[1]], streamErrored := false, exitCode := 0 }
        [] [("perf:video.mxf", 200)]).2 = some 300 := by
  have h := (perf_sample_background_update "video.mxf:1:10" "perf:video.mxf"
    400 { chunks := [[1]], streamErrored := false, exitCode := 0 }
    [] [("perf:video.mxf", 200)] [] 0 rfl).1
  rw [h]
  norm_num [mapGet]

/-! ### C8: probe failure is recovered, audio assumed present -/

/-- C8: the audio-presence step of `_streamSegmentInternal` never surfaces a
probe error (the `try`/`catch` at lines 435–446 recovers it locally), and on
a probe failure with no cached metadata it proceeds with `hasAudio = true`
(fail open) and records nothing in the metadata cache. -/
theorem probe_failure_fails_open (cached : Option VideoMetadata)
    (probe : Except ProbeError VideoMetadata) :
    (∃ y, resolveHasAudio cached probe = Except.ok y) ∧
    (∀ e : ProbeError, resolveHasAudio none (Except.error e)
      = Except.ok (true, none)) := by
  constructor
  · cases cached with
    | some info => exact ⟨_, rfl⟩
    | none => cases probe with
      | ok info => exact ⟨_, rfl⟩
      | error e => exact ⟨_, rfl⟩
  · intro e
    rfl

/-! ### C3: cache maintenance lemmas -/

theorem cleanupLoop_of_le (t T : ℚ) (f : String → Bool) (l : LocalFileCache)
    (r : ℚ) (h : T - r ≤ t) : cleanupLoop t T f l r = ([], r) := by
  cases l with
  | nil => rfl
  | cons kv rest =>
    obtain ⟨k, e⟩ := kv
    simp [cleanupLoop, h]

theorem cleanupLoop_sublist (t T : ℚ) (f : String → Bool) :
    ∀ (l : LocalFileCache) (r : ℚ), ((cleanupLoop t T f l r).1).Sublist l := by
  intro l
  induction l with
  | nil => intro r; simp [cleanupLoop]
  | cons kv rest ih =>
    intro r
    obtain ⟨k, e⟩ := kv
    by_cases hbr : T - r ≤ t
    · simp [cleanupLoop, hbr]
    · by_cases hf : f e.path
      · simp only [cleanupLoop, if_neg hbr, if_pos hf]
        exact (ih r).trans (List.sublist_cons_self _ _)
      · simp only [cleanupLoop, if_neg hbr, if_neg hf]
        exact (ih _).cons₂ _

theorem cleanupLoop_skip_failures (t T : ℚ) (f : String → Bool) :
    ∀ (l : LocalFileCache) (r : ℚ),
      (cleanupLoop t T f l r).1
        = (cleanupLoop t T (fun _ => false)
            (l.filter (fun kv => !(f kv.2.path))) r).1 := by
  intro l
  induction l with
  | nil => intro r; rfl
  | cons kv rest ih =>
    intro r
    obtain ⟨k, e⟩ := kv
    by_cases hbr : T - r ≤ t
    · rw [cleanupLoop_of_le t T f _ r hbr,
        cleanupLoop_of_le t T (fun _ => false) _ r hbr]
    · by_cases hf : f e.path
      · simp only [cleanupLoop, if_neg hbr, if_pos hf, List.filter_cons, hf,
          Bool.not_true, Bool.false_eq_true, if_false]
        exact ih r
      · have hf2 : f e.path = false := Bool.eq_false_iff.mpr hf
        simp only [cleanupLoop, if_neg hbr, if_neg hf, List.filter_cons, hf2,
          Bool.not_false, if_true]
        simp only [Bool.false_eq_true, if_false, List.cons.injEq]
        exact ⟨trivial, ih _⟩

theorem cleanupLoop_allsucc (t T : ℚ) (ht : 0 ≤ t) :
    ∀ (l : LocalFileCache) (r : ℚ),
      (l.map (fun kv => kv.1)).Nodup →
      T - r = totalCacheSize l →
      totalCacheSize (l.filter (fun kv =>
        decide (kv.1 ∉ ((cleanupLoop t T (fun _ => false) l r).1).map
          (fun ev => ev.1)))) ≤ t := by
  intro l
  induction l with
  | nil =>
    intro r _ _
    simpa [totalCacheSize] using ht
  | cons kv rest ih =>
    intro r hnd hinv
    obtain ⟨k, e⟩ := kv
    by_cases hbr : T - r ≤ t
    · rw [cleanupLoop_of_le t T (fun _ => false) _ r hbr]
      have hall : ((k, e) :: rest).filter (fun kv =>
          decide (kv.1 ∉ (([] : LocalFileCache)).map (fun ev => ev.1)))
          = (k, e) :: rest := by
        simp
      rw [hall, ← hinv]
      exact hbr
    · have hloop : cleanupLoop t T (fun _ => false) ((k, e) :: rest) r
          = ((k, e) :: (cleanupLoop t T (fun _ => false) rest (r + e.size)).1,
             (cleanupLoop t T (fun _ => false) rest (r + e.size)).2) := by
        simp [cleanupLoop, hbr]
      rw [hloop]
      have hk : k ∉ rest.map (fun kv => kv.1) := by
        have h2 := hnd
        simp only [List.map_cons, List.nodup_cons] at h2
        exact h2.1
      have hndrest : (rest.map (fun kv => kv.1)).Nodup := by
        have h2 := hnd
        simp only [List.map_cons, List.nodup_cons] at h2
        exact h2.2
      have hinv2 : T - (r + e.size) = totalCacheSize rest := by
        have h3 : totalCacheSize ((k, e) :: rest) = e.size + totalCacheSize rest := by
          simp [totalCacheSize]
        rw [h3] at hinv
        linarith
      have hhead : (decide ((k, e).1 ∉
          (((k, e) :: (cleanupLoop t T (fun _ => false) rest (r + e.size)).1).map
            (fun ev => ev.1)))) = false := by
        simp
      rw [List.filter_cons, hhead]
      simp only [Bool.false_eq_true, if_false]
      have hcongr : rest.filter (fun kv => decide (kv.1 ∉
            (((k, e) :: (cleanupLoop t T (fun _ => false) rest (r + e.size)).1).map
              (fun ev => ev.1))))
          = rest.filter (fun kv => decide (kv.1 ∉
            (((cleanupLoop t T (fun _ => false) rest (r + e.size)).1).map
              (fun ev => ev.1)))) := by
        apply List.filter_congr
        intro x hx
        have hxk : ¬(x.1 = k) := by
          intro hxe
          exact hk (hxe ▸ List.mem_map_of_mem (fun kv => kv.1) hx)
        apply decide_eq_decide.mpr
        simp [hxk]
      rw [hcongr]
      exact ih (r + e.size) hndrest hinv2

/-- C3: cache maintenance, as run after every successful download. When the
tracked total does not exceed the configured maximum the pass is a no-op;
when it does and deletions succeed, the pass drives the total down to at most
80% of the maximum; candidates are evicted in ascending order of
last-accessed time; a failing deletion is skipped without aborting the pass —
the pass behaves on the remaining candidates exactly as if the failing
entries were absent; each eviction removes the tracking entry, and exactly
the evicted entries' files are deleted from disk. -/
theorem cache_cleanup_lru_to_eighty (maxSize : ℚ) (unlinkFails : String → Bool)
    (cache : LocalFileCache) (hmax : 0 ≤ maxSize)
    (hnd : (cache.map (fun kv => kv.1)).Nodup) :
    (totalCacheSize cache ≤ maxSize →
      cleanupCacheIfNeeded maxSize unlinkFails cache = (cache, [])) ∧
    (totalCacheSize cache > maxSize → (∀ p, unlinkFails p = false) →
      totalCacheSize (cleanupCacheIfNeeded maxSize unlinkFails cache).1
        ≤ maxSize * (8 / 10)) ∧
    List.Pairwise lastAccessedLE (evictedEntries maxSize unlinkFails cache) ∧
    evictedEntries maxSize unlinkFails cache
      = (cleanupLoop (maxSize * (8 / 10)) (totalCacheSize cache)
          (fun _ => false)
          ((List.insertionSort lastAccessedLE cache).filter
            (fun kv => !(unlinkFails kv.2.path))) 0).1 ∧
    (totalCacheSize cache > maxSize →
      ∀ kv ∈ (cleanupCacheIfNeeded maxSize unlinkFails cache).1,
        kv.1 ∉ (evictedEntries maxSize unlinkFails cache).map
          (fun ev => ev.1)) ∧
    (totalCacheSize cache > maxSize →
      (cleanupCacheIfNeeded maxSize unlinkFails cache).2
        = (evictedEntries maxSize unlinkFails cache).map
            (fun ev => ev.2.path)) := by
  refine ⟨?_, ?_, ?_, ?_, ?_, ?_⟩
  · intro hle
    unfold cleanupCacheIfNeeded
    rw [if_neg (not_lt.mpr hle)]
  · intro htrig hfls
    have hfeq : unlinkFails = fun _ => false := funext hfls
    subst hfeq
    have hperm : (List.insertionSort lastAccessedLE cache).Perm cache :=
      List.perm_insertionSort lastAccessedLE cache
    have htotS : totalCacheSize (List.insertionSort lastAccessedLE cache)
        = totalCacheSize cache := by
      unfold totalCacheSize
      exact List.Perm.sum_eq (hperm.map (fun kv => kv.2.size))
    have hndS : ((List.insertionSort lastAccessedLE cache).map
        (fun kv => kv.1)).Nodup :=
      ((hperm.map (fun kv => kv.1)).nodup_iff).mpr hnd
    have ht : (0 : ℚ) ≤ maxSize * (8 / 10) := mul_nonneg hmax (by norm_num)
    have hmain := cleanupLoop_allsucc (maxSize * (8 / 10))
      (totalCacheSize cache) ht (List.insertionSort lastAccessedLE cache) 0
      hndS (by rw [htotS]; ring)
    unfold cleanupCacheIfNeeded
    rw [if_pos htrig]
    unfold evictedEntries
    have heq : totalCacheSize
        (cache.filter (fun kv => decide (kv.1 ∉
          ((cleanupLoop (maxSize * (8 / 10)) (totalCacheSize cache)
            (fun _ => false) (List.insertionSort lastAccessedLE cache) 0).1).map
          (fun e => e.1))))
        = totalCacheSize
          ((List.insertionSort lastAccessedLE cache).filter
            (fun kv => decide (kv.1 ∉
              ((cleanupLoop (maxSize * (8 / 10)) (totalCacheSize cache)
                (fun _ => false)
                (List.insertionSort lastAccessedLE cache) 0).1).map
              (fun e => e.1)))) := by
      unfold totalCacheSize
      exact List.Perm.sum_eq (((hperm.filter _).symm).map (fun kv => kv.2.size))
    rw [heq]
    exact hmain
  · unfold evictedEntries
    exact List.Pairwise.sublist
      (cleanupLoop_sublist (maxSize * (8 / 10)) (totalCacheSize cache)
        unlinkFails (List.insertionSort lastAccessedLE cache) 0)
      (List.sorted_insertionSort lastAccessedLE cache)
  · unfold evictedEntries
    exact cleanupLoop_skip_failures (maxSize * (8 / 10)) (totalCacheSize cache)
      unlinkFails (List.insertionSort lastAccessedLE cache) 0
  · intro htrig kv hkv
    unfold cleanupCacheIfNeeded at hkv
    rw [if_pos htrig] at hkv
    simp only [List.mem_filter] at hkv
    simpa using hkv.2
  · intro htrig
    unfold cleanupCacheIfNeeded
    rw [if_pos htrig]

/-- Witness for C3 at a concrete input: two 60-byte entries against a
100-byte maximum; after the pass the tracked total is at most 80 bytes. -/
theorem cache_cleanup_lru_to_eighty_witness :
    totalCacheSize (cleanupCacheIfNeeded 100 (fun _ => false)
      [("alpha.mxf", { path := "/tmp/videoreview/a.mxf", size := 60,
                       lastAccessed := 1, downloadTime := 0 }),
       ("beta.mxf", { path := "/tmp/videoreview/b.mxf", size := 60,
                      lastAccessed := 2, downloadTime := 0 })]).1
      ≤ 100 * (8 / 10) :=
  (cache_cleanup_lru_to_eighty 100 (fun _ => false)
    [("alpha.mxf", { path := "/tmp/videoreview/a.mxf", size := 60,
                     lastAccessed := 1, downloadTime := 0 }),
     ("beta.mxf", { path := "/tmp/videoreview/b.mxf", size := 60,
                    lastAccessed := 2, downloadTime := 0 })]
    (by norm_num) (by simp)).2.1
    (by norm_num [totalCacheSize]) (fun p => rfl)

/-! ### C2: playlist durations -/

theorem sum_min_range (T d : ℚ) (hd : 0 < d) (m : ℕ)
    (h1 : (m : ℚ) * d < T) (h2 : T ≤ ((m : ℚ) + 1) * d) :
    ((List.range (m + 1)).map (fun (i : ℕ) => min d (T - (i : ℚ) * d))).sum
      = T := by
  rw [List.range_succ, List.map_append, List.sum_append]
  have hbody : (List.range m).map (fun (i : ℕ) => min d (T - (i : ℚ) * d))
      = (List.range m).map (fun _ => d) := by
    apply List.map_congr_left
    intro i hi
    rw [List.mem_range] at hi
    apply min_eq_left
    have hi1 : (i : ℚ) + 1 ≤ (m : ℚ) := by exact_mod_cast hi
    nlinarith
  rw [hbody, List.map_const', List.sum_replicate, List.length_range,
    nsmul_eq_mul]
  have hlast : min d (T - (m : ℚ) * d) = T - (m : ℚ) * d := by
    apply min_eq_right
    linarith
  simp [hlast]

/-- C2: for any positive `totalDuration` and `segmentDuration`, the playlist
builder emits `ceil(totalDuration / segmentDuration)` segments whose
durations sum exactly to `totalDuration`; every non-final segment lasts
exactly `segmentDuration` and the final segment absorbs the remainder
`totalDuration - (count - 1) * segmentDuration`. -/
theorem playlist_durations_sum_exact (T d : ℚ) (hT : 0 < T) (hd : 0 < d) :
    (generateHLSSegments T d).length = ⌈T / d⌉₊ ∧
    ((generateHLSSegments T d).map (fun s => s.duration)).sum = T ∧
    (∀ s ∈ generateHLSSegments T d, s.index + 1 < ⌈T / d⌉₊ → s.duration = d) ∧
    (∀ s ∈ generateHLSSegments T d, s.index + 1 = ⌈T / d⌉₊ →
      s.duration = T - ((⌈T / d⌉₊ : ℚ) - 1) * d) := by
  have hn : 1 ≤ ⌈T / d⌉₊ := Nat.one_le_ceil_iff.mpr (div_pos hT hd)
  obtain ⟨m, hm⟩ : ∃ m, ⌈T / d⌉₊ = m + 1 :=
    ⟨⌈T / d⌉₊ - 1, (Nat.succ_pred_eq_of_pos hn).symm⟩
  have hup : T ≤ ((m : ℚ) + 1) * d := by
    have := Nat.le_ceil (T / d)
    rw [hm] at this
    push_cast at this
    calc T = (T / d) * d := by field_simp
    _ ≤ ((m : ℚ) + 1) * d := by
        apply mul_le_mul_of_nonneg_right this (le_of_lt hd)
  have hlow : (m : ℚ) * d < T := by
    have hmlt : m < ⌈T / d⌉₊ := by omega
    have := Nat.lt_ceil.mp hmlt
    calc (m : ℚ) * d < (T / d) * d := by
          apply mul_lt_mul_of_pos_right this hd
    _ = T := by field_simp
  refine ⟨?_, ?_, ?_, ?_⟩
  · simp [generateHLSSegments]
  · have hmap : (generateHLSSegments T d).map (fun s => s.duration)
        = (List.range ⌈T / d⌉₊).map (fun (i : ℕ) => min d (T - (i : ℚ) * d)) := by
      simp [generateHLSSegments, List.map_map]
    rw [hmap, hm]
    exact sum_min_range T d hd m hlow hup
  · intro s hs hidx
    simp only [generateHLSSegments, List.mem_map, List.mem_range] at hs
    obtain ⟨i, hi, rfl⟩ := hs
    dsimp only at hidx ⊢
    rw [hm] at hidx
    apply min_eq_left
    have hi1 : i + 1 ≤ m := by omega
    have : (i : ℚ) + 1 ≤ (m : ℚ) := by exact_mod_cast hi1
    nlinarith
  · intro s hs hidx
    simp only [generateHLSSegments, List.mem_map, List.mem_range] at hs
    obtain ⟨i, hi, rfl⟩ := hs
    dsimp only at hidx ⊢
    rw [hm] at hidx
    have him : i = m := by omega
    subst him
    have hlast : min d (T - (i : ℚ) * d) = T - (i : ℚ) * d := by
      apply min_eq_right
      linarith
    rw [hlast, hm]
    push_cast
    ring_nf

/-- Witness for C2 at the spec's example input `totalDuration = 25`,
`segmentDuration = 10`: the emitted durations sum to 25. -/
theorem playlist_durations_sum_exact_witness :
    ((0 : ℚ) < 25 ∧ (0 : ℚ) < 10) ∧
    ((generateHLSSegments 25 10).map (fun s => s.duration)).sum = 25 :=
  ⟨⟨by norm_num, by norm_num⟩,
   (playlist_durations_sum_exact 25 10 (by norm_num) (by norm_num)).2.1⟩

/-! ### C7: second caller during a download -/

/-- C7: a second caller entering `ensureLocalFile` while the first caller's
download is in flight — after the write stream has created the destination
file, i.e. for essentially the whole download — takes the `fs.existsSync`
hit branch (line 112) and is handed the partial file's path immediately: its
outcome is `cachedPath`, not a join of the registered in-flight promise,
refuting the claim's "awaits the same in-flight result" while the download
is still writing (`activeDownload` registered, `fileComplete` false). The
parts of the claim the code does keep also hold at this input: no second
network transfer is started and the path string the second caller gets is
the one the in-flight download will resolve. -/
theorem second_caller_gets_partial_file :
    (secondCallerDuringDownload "/tmp/videoreview/ab.mxf").2.1
      = .cachedPath "/tmp/videoreview/ab.mxf" ∧
    ((secondCallerDuringDownload "/tmp/videoreview/ab.mxf").2.2).activeDownload
      = some (0, "/tmp/videoreview/ab.mxf") ∧
    ((secondCallerDuringDownload "/tmp/videoreview/ab.mxf").2.2).fileComplete
      = false ∧
    ((secondCallerDuringDownload "/tmp/videoreview/ab.mxf").2.2).startedDownloads
      = 1 ∧
    (secondCallerDuringDownload "/tmp/videoreview/ab.mxf").1
      = .startedDownload 0 "/tmp/videoreview/ab.mxf" :=
  ⟨rfl, rfl, rfl, rfl, rfl⟩

/-! ### C9: look-ahead scheduling bounds -/

theorem lookAheadLoop_mem (isActive isCached : String → Bool) (s3Key : String)
    (segmentDuration : ℚ) (totalSegments : ℕ) (current : ℤ) :
    ∀ (rem i : ℕ) (x : ℤ),
      x ∈ lookAheadLoop isActive isCached s3Key segmentDuration totalSegments
            current i rem →
      x < (totalSegments : ℤ) ∧
      isActive (segmentJobKey s3Key x segmentDuration) = false ∧
      isCached (segmentJobKey s3Key x segmentDuration) = false := by
  intro rem
  induction rem with
  | zero =>
    intro i x hx
    simp [lookAheadLoop] at hx
  | succ rem ih =>
    intro i x hx
    simp only [lookAheadLoop] at hx
    by_cases hge : current + (i : ℤ) ≥ (totalSegments : ℤ)
    · rw [if_pos hge] at hx
      simp at hx
    · rw [if_neg hge] at hx
      by_cases hskip :
          isActive (segmentJobKey s3Key (current + (i : ℤ)) segmentDuration) ||
          isCached (segmentJobKey s3Key (current + (i : ℤ)) segmentDuration)
      · rw [if_pos hskip] at hx
        exact ih _ _ hx
      · rw [if_neg hskip] at hx
        by_cases h0 : current + (i : ℤ) = 0
        · rw [if_pos h0] at hx
          exact ih _ _ hx
        · rw [if_neg h0] at hx
          rcases List.mem_cons.mp hx with rfl | hx2
          · rw [Bool.or_eq_true] at hskip
            push_neg at hskip
            refine ⟨lt_of_not_ge hge, ?_, ?_⟩
            · exact Bool.not_eq_true _ ▸ Bool.eq_false_iff.mpr hskip.1
            · exact Bool.not_eq_true _ ▸ Bool.eq_false_iff.mpr hskip.2
          · exact ih _ _ hx2

/-- C9 counterexample: for a probed duration of 0 the total segment count
`ceil(0 / 10)` is 0, yet the always-prioritized segment 0 (lines 610–614,
guarded only by the cache and registry checks, not by the total) is still
enqueued as a background encode — an index ≥ the total segment count. -/
theorem lookahead_zero_duration_overschedules :
    (0 : ℤ) ∈ preEncodePlan (fun _ => false) (fun _ => false) "video.mxf"
      0 10 none 0 ∧
    ¬((0 : ℤ) < ((⌈(0 : ℚ) / 10⌉₊ : ℕ) : ℤ)) := by
  constructor
  · simp [preEncodePlan]
  · simp

/-- C9 amended: provided the total segment count
`ceil(duration / segmentDuration)` is at least 1 (any positive probed
duration), look-ahead scheduling never enqueues a segment index at or beyond
the total segment count, and never enqueues an index whose job key is
in-flight or cached at scheduling time. (For a total of 0 the prioritized
segment 0 escapes the bound, as the counterexample shows.) -/
theorem lookahead_never_overschedules (isActive isCached : String → Bool)
    (s3Key : String) (duration segmentDuration : ℚ) (avgTime : Option ℚ)
    (current : ℤ) (htot : 1 ≤ ⌈duration / segmentDuration⌉₊) :
    ∀ x ∈ preEncodePlan isActive isCached s3Key duration segmentDuration
            avgTime current,
      x < ((⌈duration / segmentDuration⌉₊ : ℕ) : ℤ) ∧
      isActive (segmentJobKey s3Key x segmentDuration) = false ∧
      isCached (segmentJobKey s3Key x segmentDuration) = false := by
  intro x hx
  unfold preEncodePlan at hx
  rw [List.mem_append] at hx
  rcases hx with hx | hx
  · by_cases h0 :
        isActive (segmentJobKey s3Key 0 segmentDuration) ||
        isCached (segmentJobKey s3Key 0 segmentDuration)
    · rw [if_pos h0] at hx
      simp at hx
    · rw [if_neg h0] at hx
      rw [List.mem_singleton] at hx
      subst hx
      rw [Bool.or_eq_true] at h0
      push_neg at h0
      refine ⟨by exact_mod_cast htot, ?_, ?_⟩
      · exact Bool.not_eq_true _ ▸ Bool.eq_false_iff.mpr h0.1
      · exact Bool.not_eq_true _ ▸ Bool.eq_false_iff.mpr h0.2
  · exact lookAheadLoop_mem isActive isCached s3Key segmentDuration _ current
      _ _ x hx

/-- Witness for C9's amended theorem at a concrete input: a 95-second source
with 10-second segments (10 segments total) and empty caches; the scheduled
index 1 is below the total segment count. -/
theorem lookahead_never_overschedules_witness :
    (1 : ℤ) < ((⌈(95 : ℚ) / 10⌉₊ : ℕ) : ℤ) :=
  (lookahead_never_overschedules (fun _ => false) (fun _ => false)
    "video.mxf" 95 10 none 0
    (by rw [Nat.one_le_ceil_iff]; norm_num) 1
    (by
      have h10 : ⌈(95 : ℚ) / 10⌉₊ = 10 := by
        rw [Nat.ceil_eq_iff (by norm_num)]
        norm_num
      simp [preEncodePlan, segmentsAheadFor, lookAheadLoop, h10])).1

/-! ### C10: frame effect of a local-cache hit -/

/-- C10: on a local-cache hit, `ensureLocalFile` mutates only the hit key's
own tracking entry — size refreshed from the on-disk stat, `lastAccessed` set
to now, `downloadTime` preserved when the key was already tracked — while
every other key's entry is untouched, no tracked key is evicted, and the
local path is returned; cache maintenance does not run on this branch. -/
theorem local_hit_frame_effect (dir : String) (sha : String → String)
    (now statSize : ℚ) (s3Key : String) (cache : LocalFileCache) :
    (∀ k2, k2 ≠ s3Key →
      mapGet k2 (ensureLocalFileHit dir sha now statSize s3Key cache).1
        = mapGet k2 cache) ∧
    mapGet s3Key (ensureLocalFileHit dir sha now statSize s3Key cache).1
      = some { path := getLocalFilePath dir sha s3Key
               size := statSize
               lastAccessed := now
               downloadTime :=
                 match mapGet s3Key cache with
                 | some old => old.downloadTime
                 | none => now } ∧
    (∀ k2, mapHas k2 cache = true →
      mapHas k2 (ensureLocalFileHit dir sha now statSize s3Key cache).1
        = true) ∧
    (ensureLocalFileHit dir sha now statSize s3Key cache).2
      = getLocalFilePath dir sha s3Key := by
  refine ⟨?_, ?_, ?_, rfl⟩
  · intro k2 hk2
    exact mapGet_mapSet_of_ne s3Key k2 _ cache hk2
  · exact mapGet_mapSet_self s3Key _ cache
  · intro k2 hk2
    exact mapHas_mapSet_of_has s3Key k2 _ cache hk2

/-- Witness for C10 at a concrete input: a hit on key `b.mxf` leaves the
entry of the other tracked key `a.mxf` unchanged. -/
theorem local_hit_frame_effect_witness :
    mapGet "a.mxf"
      (ensureLocalFileHit "/tmp/videoreview" (fun _ => "h") 9 70 "b.mxf"
        [("a.mxf", { path := "/tmp/videoreview/a.video", size := 5,
                     lastAccessed := 1, downloadTime := 1 })]).1
      = mapGet "a.mxf"
          [("a.mxf", { path := "/tmp/videoreview/a.video", size := 5,
                       lastAccessed := 1, downloadTime := 1 })] :=
  (local_hit_frame_effect "/tmp/videoreview" (fun _ => "h") 9 70 "b.mxf"
    [("a.mxf", { path := "/tmp/videoreview/a.video", size := 5,
                 lastAccessed := 1, downloadTime := 1 })]).1
    "a.mxf" (by decide)

end VideoReview
